import Mathlib

/-!
Verification of the spectro-rs specification against a shallow embedding of
the source.  Numeric code (`f32`/`f64` in the source) is embedded over `ℚ`
(exact rational arithmetic) where the computation is purely rational, and
over `ℝ` where the source calls transcendental library functions
(`sin`, `cos`, `exp`, `sqrt`, `atan2`).  Fallible code is embedded with
`Option`/`Except`; out-of-bounds indexing (a Rust panic) is modelled as
`none`.  Machine integers are `Nat`/`Int` with explicit `% 2^32` where the
source relies on wraparound.
-/

set_option maxHeartbeats 1000000
set_option maxRecDepth 10000

/-! ## The canonical wavelength grid (`WAVELENGTHS`, 36 entries, both crates)

Both `src/lib.rs` and `crates/spectro-core/src/lib.rs` define
`WAVELENGTHS : [f32; 36] = [380, 390, …, 730]`. -/

def WAVELENGTHS : List ℚ :=
  [380, 390, 400, 410, 420, 430, 440, 450, 460, 470, 480, 490, 500,
   510, 520, 530, 540, 550, 560, 570, 580, 590, 600, 610, 620, 630,
   640, 650, 660, 670, 680, 690, 700, 710, 720, 730]

/-! ## `SpectralData` in `crates/spectro-core/src/spectrum.rs` -/

inductive CoreMode where
  | Reflective
  | Emissive
deriving DecidableEq, Repr

structure CoreSpectralData where
  wavelengths : List ℚ
  values : List ℚ
  mode : CoreMode
deriving Repr

/-- Embeds the `while values.len() < 41 { values.push(0.0) }` padding loop of
`SpectralData::new` / `SpectralData::with_mode` in spectro-core. -/
def padTo41 (values : List ℚ) : List ℚ :=
  values ++ List.replicate (41 - values.length) 0

/-- `SpectralData::new` in `crates/spectro-core/src/spectrum.rs`: pads the
values to at least 41 entries, takes the 36-entry `WAVELENGTHS` grid, and
uses the default mode (`Reflective`). -/
def CoreSpectralData.new (values : List ℚ) : CoreSpectralData :=
  { wavelengths := WAVELENGTHS
    values := padTo41 values
    mode := CoreMode.Reflective }

/-- `SpectralData::with_mode` in `crates/spectro-core/src/spectrum.rs`. -/
def CoreSpectralData.with_mode (values : List ℚ) (mode : CoreMode) :
    CoreSpectralData :=
  { wavelengths := WAVELENGTHS
    values := padTo41 values
    mode := mode }

/-! ## `SpectralData` in `src/spectrum.rs` (top-level crate) -/

structure TopSpectralData where
  wavelengths : List ℚ
  values : List ℚ
deriving Repr

/-- `SpectralData::new` in `src/src/spectrum.rs`: stores the input values
unchanged next to the 36-entry `WAVELENGTHS` grid. -/
def TopSpectralData.new (values : List ℚ) : TopSpectralData :=
  { wavelengths := WAVELENGTHS
    values := values }

theorem wavelengths_length : WAVELENGTHS.length = 36 := by
  rfl

theorem padTo41_length (values : List ℚ) :
    (padTo41 values).length = max values.length 41 := by
  simp [padTo41]
  omega

/-- C1 counterexample: the claim `len(wavelengths) == len(values)` fails for
a `Spectrum` built by spectro-core's public constructor `SpectralData::new`
on the empty input: the wavelength grid has 36 entries while the values are
padded up to 41 entries. -/
theorem spectrum_new_length_invariant_fails :
    (CoreSpectralData.new []).wavelengths.length ≠
      (CoreSpectralData.new []).values.length := by
  decide

/-- C1 (amended): spectro-core's `SpectralData::new` and
`SpectralData::with_mode` always produce 36 wavelengths and
`max (len input) 41` values, so `len(wavelengths) == len(values)` never
holds there; the top-level crate's `SpectralData::new` stores the values
unchanged, so the invariant holds there exactly when the input has 36
values. -/
theorem spectrum_constructor_lengths (values : List ℚ) (mode : CoreMode) :
    (CoreSpectralData.new values).wavelengths.length = 36 ∧
    (CoreSpectralData.new values).values.length = max values.length 41 ∧
    (CoreSpectralData.with_mode values mode).wavelengths.length = 36 ∧
    (CoreSpectralData.with_mode values mode).values.length
      = max values.length 41 ∧
    ((TopSpectralData.new values).wavelengths.length
        = (TopSpectralData.new values).values.length ↔ values.length = 36) := by
  refine ⟨rfl, padTo41_length values, rfl, padTo41_length values, ?_⟩
  constructor
  · intro h
    rw [TopSpectralData.new] at h
    simpa [wavelengths_length] using h.symm
  · intro h
    rw [TopSpectralData.new]
    rw [wavelengths_length, h]

/-! ## The ColorMunki radiometric pipeline (`src/munki.rs`)

The driver state that the claims touch is embedded as explicit values:
`MunkiConfig` is the parsed EEPROM content, `intTime` the integration time
`min_int_count * tick_duration * 1e-6` in seconds, `dark`/`white` the
per-session calibration state, and `raw` the 137-sample u16 frame.  Rust
slice indexing (which panics when out of bounds) is embedded as `List.get?`
inside an `Option` computation, and the source's `for … push` loops as
`traverseOpt` below. -/

inductive MeasurementMode where
  | Reflective
  | Emissive
  | Ambient
deriving DecidableEq, Repr

structure MunkiConfig where
  rmtx_index : List ℕ
  rmtx_coef : List ℚ
  emtx_index : List ℕ
  emtx_coef : List ℚ
  lin_normal : List ℚ
  lin_high : List ℚ
  white_ref : List ℚ
  amb_coef : List ℚ
deriving Repr, DecidableEq

/-- Option-valued traversal mirroring the source's `for` loops that `push`
one element per iteration and propagate failure. -/
def traverseOpt : List α → (α → Option β) → Option (List β)
  | [], _ => some []
  | a :: as, f => do
      let b ← f a
      let bs ← traverseOpt as f
      pure (b :: bs)

/-- One iteration of the linearization loop in `Munki::process_spectrum`:
dark subtraction (when a dark reference is present) followed by the Horner
evaluation of the gain polynomial and the `1 / int_time` scaling. -/
def linStep (raw : List ℕ) (dark : Option (List ℕ)) (polys : List ℚ)
    (scale : ℚ) (i : ℕ) : Option ℚ := do
  let r ← raw.get? (6 + i)
  let val ← match dark with
    | none => pure ((r : ℚ))
    | some d => do
        let dv ← d.get? (6 + i)
        pure ((r : ℚ) - (dv : ℚ))
  let p3 ← polys.get? 3
  let p2 ← polys.get? 2
  let p1 ← polys.get? 1
  let p0 ← polys.get? 0
  pure ((((p3 * val + p2) * val + p1) * val + p0) * scale)

/-- The 128-step linearization loop of `Munki::process_spectrum`. -/
def linearize (raw : List ℕ) (dark : Option (List ℕ)) (polys : List ℚ)
    (scale : ℚ) : Option (List ℚ) :=
  traverseOpt (List.range 128) (linStep raw dark polys scale)

/-- The matrix selection in `Munki::process_spectrum`: the emissive matrix
is chosen exactly when `mode == MeasurementMode::Emissive`; every other
mode gets the reflective matrix. -/
def mtxSelect (cfg : MunkiConfig) (mode : MeasurementMode) :
    List ℕ × List ℚ :=
  if mode = MeasurementMode.Emissive then (cfg.emtx_index, cfg.emtx_coef)
  else (cfg.rmtx_index, cfg.rmtx_coef)

/-- One band of the sparse reconstruction in `Munki::process_spectrum`:
`sum += coef[w*16+k] * linearized[idx+k]` for the taps `k < 16` whose
index stays below `linearized.len()`; out-of-range taps are skipped. -/
def bandAt (mi : List ℕ) (mc : List ℚ) (lin : List ℚ) (w : ℕ) :
    Option ℚ := do
  let idx ← mi.get? w
  let terms ← traverseOpt (List.range 16) (fun k =>
    if idx + k < lin.length then do
      let c ← mc.get? (w * 16 + k)
      let lv ← lin.get? (idx + k)
      pure (c * lv)
    else pure 0)
  pure terms.sum

/-- The mode-specific scaling at the end of `Munki::process_spectrum`:
reflective bands are multiplied by the white calibration factor when one is
set, ambient bands by `amb_coef`, emissive bands are left alone. -/
def scaleBand (cfg : MunkiConfig) (white : Option (List ℚ))
    (mode : MeasurementMode) (w : ℕ) (s : ℚ) : Option ℚ :=
  match mode with
  | MeasurementMode.Reflective =>
      match white with
      | some factors => do
          let f ← factors.get? w
          pure (s * f)
      | none => pure s
  | MeasurementMode.Ambient => do
      let a ← cfg.amb_coef.get? w
      pure (s * a)
  | MeasurementMode.Emissive => pure s

/-- `Munki::process_spectrum`: linearize the 128 usable samples of a
137-sample frame, reconstruct 36 bands through the mode-selected sparse
matrix, and apply the mode scaling.  Returns the 36 band values. -/
def processSpectrum (cfg : MunkiConfig) (intTime : ℚ)
    (dark : Option (List ℕ)) (white : Option (List ℚ)) (raw : List ℕ)
    (highGain : Bool) (mode : MeasurementMode) : Option (List ℚ) := do
  let polys := if highGain then cfg.lin_high else cfg.lin_normal
  let scale := 1 / intTime
  let lin ← linearize raw dark polys scale
  let mtx := mtxSelect cfg mode
  traverseOpt (List.range 36) (fun w => do
    let s ← bandAt mtx.1 mtx.2 lin w
    scaleBand cfg white mode w s)

/-- Modelled from the spec: the spec's §4.D step 5 says the reconstruction
matrix is reflective for `Reflective` and emissive for `Emissive` and
`Ambient`.  This variant of the pipeline follows those words; the source's
`processSpectrum` is compared against it. -/
def processSpectrumSpecMtx (cfg : MunkiConfig) (intTime : ℚ)
    (dark : Option (List ℕ)) (white : Option (List ℚ)) (raw : List ℕ)
    (highGain : Bool) (mode : MeasurementMode) : Option (List ℚ) := do
  let polys := if highGain then cfg.lin_high else cfg.lin_normal
  let scale := 1 / intTime
  let lin ← linearize raw dark polys scale
  let mtx := if mode = MeasurementMode.Reflective
    then (cfg.rmtx_index, cfg.rmtx_coef)
    else (cfg.emtx_index, cfg.emtx_coef)
  traverseOpt (List.range 36) (fun w => do
    let s ← bandAt mtx.1 mtx.2 lin w
    scaleBand cfg white mode w s)

/-- Concrete EEPROM configuration used as a counterexample carrier: the
reflective matrix has an empty coefficient table (so any reconstruction
that consults it fails on the first tap) while the emissive matrix is
fully populated, so the two matrix choices yield observably different
outcomes. -/
def cfgDistinct : MunkiConfig :=
  { rmtx_index := List.replicate 36 0
    rmtx_coef := []
    emtx_index := List.replicate 36 0
    emtx_coef := List.replicate 576 1
    lin_normal := [0, 0, 0, 0]
    lin_high := [0, 0, 0, 0]
    white_ref := List.replicate 36 1
    amb_coef := List.replicate 36 1 }

/-- C2 counterexample: on a concrete 137-sample frame, Ambient-mode
processing through `process_spectrum` does not match the spec's description
(emissive matrix for Ambient): the code consults the reflective matrix, so
with `cfgDistinct` the Ambient reconstruction reads the (empty) reflective
coefficient table and fails, while the spec's emissive-matrix version
succeeds. -/
theorem ambient_mode_not_emissive_matrix :
    processSpectrum cfgDistinct 1 none none (List.replicate 137 0) false
        MeasurementMode.Ambient ≠
      processSpectrumSpecMtx cfgDistinct 1 none none (List.replicate 137 0)
        false MeasurementMode.Ambient := by
  decide

/-- C2 (amended): `process_spectrum` selects the emissive matrix only for
`Emissive` mode; `Ambient` (like `Reflective`) is reconstructed with the
reflective matrix `rmtx_index`/`rmtx_coef`, and the Ambient output is
independent of the emissive matrix entirely.  For `Reflective` and
`Emissive` the code agrees with the spec's matrix table. -/
theorem processSpectrum_matrix_choice (cfg : MunkiConfig) (t : ℚ)
    (d : Option (List ℕ)) (w : Option (List ℚ)) (raw : List ℕ)
    (hg : Bool) :
    (∀ ei ec,
      processSpectrum cfg t d w raw hg MeasurementMode.Ambient =
        processSpectrum { cfg with emtx_index := ei, emtx_coef := ec }
          t d w raw hg MeasurementMode.Ambient) ∧
    mtxSelect cfg MeasurementMode.Ambient
      = (cfg.rmtx_index, cfg.rmtx_coef) ∧
    mtxSelect cfg MeasurementMode.Emissive
      = (cfg.emtx_index, cfg.emtx_coef) ∧
    mtxSelect cfg MeasurementMode.Reflective
      = (cfg.rmtx_index, cfg.rmtx_coef) ∧
    processSpectrum cfg t d w raw hg MeasurementMode.Reflective
      = processSpectrumSpecMtx cfg t d w raw hg MeasurementMode.Reflective ∧
    processSpectrum cfg t d w raw hg MeasurementMode.Emissive
      = processSpectrumSpecMtx cfg t d w raw hg MeasurementMode.Emissive := by
  exact ⟨fun ei ec => rfl, rfl, rfl, rfl, rfl, rfl⟩

/-! ## `Spectrometer::measure` and `Munki::perform_calibration`

The transport is embedded as an oracle: `statusPos` is the dial-position
byte a `GET_STATUS` control read would return, and `rawFrame` (resp.
`rawDark`/`rawWhite`) the 137-sample frame an acquisition would deliver.
`MeasureOutcome.triggered` records whether a `TRIGGER_MEASURE` command was
issued before the function returned. -/

inductive SpectroErr where
  | CalibrationErr
  | ModeErr
  | DeviceErr
deriving DecidableEq, Repr

structure MeasureOutcome where
  triggered : Bool
  result : Except SpectroErr (List ℚ)

/-- `Munki::measure`: rejects `Reflective` when no white calibration factors
are set, rejects `Ambient` when the dial position is neither `1` (Surface)
nor `3` (Ambient); otherwise picks the lamp / high-gain flags from the mode
and triggers an acquisition, processing the returned frame. -/
def Munki.measure (cfg : MunkiConfig) (intTime : ℚ) (dark : Option (List ℕ))
    (white : Option (List ℚ)) (statusPos : ℕ) (rawFrame : List ℕ)
    (mode : MeasurementMode) : MeasureOutcome :=
  if mode = MeasurementMode.Reflective ∧ white.isNone then
    ⟨false, Except.error SpectroErr.CalibrationErr⟩
  else if mode = MeasurementMode.Ambient ∧ statusPos ≠ 1 ∧ statusPos ≠ 3 then
    ⟨false, Except.error SpectroErr.ModeErr⟩
  else
    let highGain := match mode with
      | MeasurementMode.Reflective => false
      | MeasurementMode.Emissive => true
      | MeasurementMode.Ambient => false
    match processSpectrum cfg intTime dark white rawFrame highGain mode with
    | some v => ⟨true, Except.ok v⟩
    | none => ⟨true, Except.error SpectroErr.DeviceErr⟩

/-- C4: `measure` returns an error without triggering an acquisition when
(a) the mode is Reflective and no white calibration factors are set, or
(b) the mode is Ambient and the dial position read from the device is
neither raw 1 (Surface) nor raw 3 (Ambient); in every other case the
guards pass and the acquisition is triggered. -/
theorem measure_guards (cfg : MunkiConfig) (intTime : ℚ)
    (dark : Option (List ℕ)) (white : Option (List ℚ)) (statusPos : ℕ)
    (rawFrame : List ℕ) (mode : MeasurementMode) :
    (mode = MeasurementMode.Reflective → white = none →
      Munki.measure cfg intTime dark white statusPos rawFrame mode =
        ⟨false, Except.error SpectroErr.CalibrationErr⟩) ∧
    (mode = MeasurementMode.Ambient → statusPos ≠ 1 → statusPos ≠ 3 →
      Munki.measure cfg intTime dark white statusPos rawFrame mode =
        ⟨false, Except.error SpectroErr.ModeErr⟩) ∧
    ((mode = MeasurementMode.Reflective → white ≠ none) →
     (mode = MeasurementMode.Ambient → statusPos = 1 ∨ statusPos = 3) →
      (Munki.measure cfg intTime dark white statusPos rawFrame mode).triggered
        = true) := by
  refine ⟨?_, ?_, ?_⟩
  · intro hm hw
    subst hm hw
    simp [Munki.measure]
  · intro hm h1 h3
    subst hm
    simp [Munki.measure, h1, h3]
  · intro hrefl hamb
    rw [Munki.measure.eq_def]
    rw [if_neg, if_neg]
    · dsimp only
      split <;> rfl
    · rintro ⟨hm, h1, h3⟩
      rcases hamb hm with h | h <;> simp_all
    · rintro ⟨hm, hw⟩
      exact hrefl hm (Option.isNone_iff_eq_none.mp hw)

/-- C4 witness: at a concrete instantiation (Reflective mode, no white
calibration), `measure` errors out without triggering an acquisition. -/
theorem measure_guards_witness :
    Munki.measure cfgDistinct 1 none none 0 (List.replicate 137 0)
        MeasurementMode.Reflective =
      ⟨false, Except.error SpectroErr.CalibrationErr⟩ :=
  (measure_guards cfgDistinct 1 none none 0 (List.replicate 137 0)
      MeasurementMode.Reflective).1 rfl rfl

/-! ### Helper lemmas about `traverseOpt` -/

theorem traverseOpt_length {α β : Type} {l : List α} {f : α → Option β}
    {ys : List β} (h : traverseOpt l f = some ys) : ys.length = l.length := by
  induction l generalizing ys with
  | nil =>
    simp [traverseOpt] at h
    subst h
    rfl
  | cons a as ih =>
    simp only [traverseOpt, Option.bind_eq_bind, Option.bind_eq_some,
      Option.some.injEq] at h
    obtain ⟨b, _, bs, hbs, hys⟩ := h
    rw [show (pure (b :: bs) : Option (List β)) = some (b :: bs) from rfl,
      Option.some.injEq] at hys
    subst hys
    simp [ih hbs]

theorem traverseOpt_congr_some {α β : Type} {l : List α} {f : α → Option β}
    {g : α → β} (h : ∀ a ∈ l, f a = some (g a)) :
    traverseOpt l f = some (l.map g) := by
  induction l with
  | nil => rfl
  | cons a as ih =>
    have ha := h a (List.mem_cons_self a as)
    have has := ih (fun x hx => h x (List.mem_cons_of_mem a hx))
    simp [traverseOpt, ha, has]

theorem get?_eq_some_getD {α : Type} {l : List α} {i : ℕ} (h : i < l.length)
    (d : α) : l.get? i = some (l.getD i d) := by
  rw [List.getD_eq_getD_get?]
  cases hg : l.get? i with
  | none => rw [List.get?_eq_none] at hg; omega
  | some x => rfl

structure CalState where
  darkRef : Option (List ℕ)
  whiteCal : Option (List ℚ)
deriving DecidableEq, Repr

/-- `Munki::perform_calibration`: requires dial position raw 2
(Calibration); stores the lamp-off frame as the new dark reference, runs
the lamp-on frame through the pipeline with the white factors taken out
(`white_scale` disabled), and derives the per-band white factors from the
measured white spectrum.  The `Bool` result is `true` on normal
completion; when a step fails the state reflects the mutations already
performed (dark reference stored, white factors taken). -/
def Munki.perform_calibration (cfg : MunkiConfig) (intTime : ℚ)
    (statusPos : ℕ) (rawDark rawWhite : List ℕ) (st : CalState) :
    CalState × Bool :=
  if statusPos ≠ 2 then (st, false)
  else
    match processSpectrum cfg intTime (some rawDark) none rawWhite false
        MeasurementMode.Reflective with
    | none => ({ darkRef := some rawDark, whiteCal := none }, false)
    | some spec =>
      match traverseOpt (List.range 36) (fun i => do
          let measured ← spec.get? i
          let reference ← cfg.white_ref.get? i
          pure (if measured > 1 / 1000000 then reference / measured else 1))
        with
      | none => ({ darkRef := some rawDark, whiteCal := none }, false)
      | some factors =>
          ({ darkRef := some rawDark, whiteCal := some factors }, true)

/-- C5: calibration fails when the dial is not at raw position 2, leaving
the dark reference and white factors unchanged; at position 2 it stores
the lamp-off frame as the new dark reference, processes the lamp-on frame
with white scaling disabled, and sets factor `w` to
`white_ref[w] / measured[w]` when `measured[w] > 1e-6` and to `1.0`
otherwise, for all 36 bands. -/
theorem perform_calibration_spec (cfg : MunkiConfig) (intTime : ℚ)
    (statusPos : ℕ) (rawDark rawWhite : List ℕ) (st : CalState) :
    (statusPos ≠ 2 →
      Munki.perform_calibration cfg intTime statusPos rawDark rawWhite st
        = (st, false)) ∧
    (statusPos = 2 → ∀ spec : List ℚ,
      processSpectrum cfg intTime (some rawDark) none rawWhite false
          MeasurementMode.Reflective = some spec →
      cfg.white_ref.length = 36 →
      Munki.perform_calibration cfg intTime statusPos rawDark rawWhite st
        = ({ darkRef := some rawDark
             whiteCal := some ((List.range 36).map (fun w =>
               if spec.getD w 0 > 1 / 1000000
               then cfg.white_ref.getD w 0 / spec.getD w 0
               else 1)) }, true)) := by
  constructor
  · intro h
    rw [Munki.perform_calibration, if_pos h]
  · intro h2 spec hps hwr
    subst h2
    have hlen : spec.length = 36 := by
      rw [processSpectrum] at hps
      simp only [Option.bind_eq_bind, Option.bind_eq_some] at hps
      obtain ⟨lin, _, htr⟩ := hps
      simpa using traverseOpt_length htr
    have hfac : traverseOpt (List.range 36) (fun i => do
        let measured ← spec.get? i
        let reference ← cfg.white_ref.get? i
        pure (if measured > 1 / 1000000
          then reference / measured else 1))
        = some ((List.range 36).map (fun w =>
            if spec.getD w 0 > 1 / 1000000
            then cfg.white_ref.getD w 0 / spec.getD w 0 else 1)) := by
      apply traverseOpt_congr_some
      intro i hi
      rw [List.mem_range] at hi
      rw [get?_eq_some_getD (by omega) 0,
        get?_eq_some_getD (l := cfg.white_ref) (by omega) 0]
      rfl
    rw [Munki.perform_calibration, if_neg (by omega), hps]
    dsimp only
    rw [hfac]

/-- Well-formed concrete configuration for witnesses: correct table
lengths, with reconstruction indices that point past the 128 linearized
samples (so every tap is skipped by the guard). -/
def cfgW : MunkiConfig :=
  { rmtx_index := List.replicate 36 1000
    rmtx_coef := List.replicate 576 0
    emtx_index := List.replicate 36 1000
    emtx_coef := List.replicate 576 0
    lin_normal := [0, 0, 0, 0]
    lin_high := [0, 0, 0, 0]
    white_ref := List.replicate 36 1
    amb_coef := List.replicate 36 1 }

def rawZeros : List ℕ := List.replicate 137 0

/-- The white spectrum actually measured by the pipeline on `cfgW` and an
all-zero frame, extracted from the successful run. -/
def specW : List ℚ :=
  (processSpectrum cfgW 1 (some rawZeros) none rawZeros false
    MeasurementMode.Reflective).getD []

theorem processSpectrum_cfgW_isSome :
    (processSpectrum cfgW 1 (some rawZeros) none rawZeros false
      MeasurementMode.Reflective).isSome = true := by
  decide

theorem processSpectrum_cfgW_eq :
    processSpectrum cfgW 1 (some rawZeros) none rawZeros false
      MeasurementMode.Reflective = some specW := by
  rw [specW]
  cases ho : processSpectrum cfgW 1 (some rawZeros) none rawZeros false
      MeasurementMode.Reflective with
  | none =>
    have := processSpectrum_cfgW_isSome
    rw [ho] at this
    cases this
  | some s => rfl

/-- C5 witness: at the concrete configuration `cfgW`, dial position 2 and
all-zero dark/white frames, calibration completes, stores the dark frame
and computes the 36 white factors by the stated formula. -/
theorem perform_calibration_spec_witness :
    Munki.perform_calibration cfgW 1 2 rawZeros rawZeros ⟨none, none⟩
      = ({ darkRef := some rawZeros
           whiteCal := some ((List.range 36).map (fun w =>
             if specW.getD w 0 > 1 / 1000000
             then cfgW.white_ref.getD w 0 / specW.getD w 0
             else 1)) }, true) :=
  (perform_calibration_spec cfgW 1 2 rawZeros rawZeros ⟨none, none⟩).2
    rfl specW processSpectrum_cfgW_eq (by decide)

theorem traverseOpt_isSome_of {α β : Type} {l : List α} {f : α → Option β}
    (h : ∀ a ∈ l, (f a).isSome = true) :
    (traverseOpt l f).isSome = true := by
  induction l with
  | nil => rfl
  | cons a as ih =>
    have ha := h a (List.mem_cons_self a as)
    obtain ⟨b, hb⟩ := Option.isSome_iff_exists.mp ha
    have has := ih (fun x hx => h x (List.mem_cons_of_mem a hx))
    obtain ⟨bs, hbs⟩ := Option.isSome_iff_exists.mp has
    simp [traverseOpt, hb, hbs]

/-- The closed form of one reconstructed band: taps whose source index
falls at or beyond the linearized samples contribute zero. -/
theorem bandAt_eq_sum {mi : List ℕ} {mc : List ℚ} (lin : List ℚ)
    {w idx : ℕ} (hgetw : mi.get? w = some idx) (hmc : mc.length = 576)
    (hw : w < 36) :
    bandAt mi mc lin w = some (((List.range 16).map (fun k =>
      if idx + k < lin.length
      then mc.getD (w * 16 + k) 0 * lin.getD (idx + k) 0
      else 0)).sum) := by
  rw [bandAt, hgetw]
  dsimp only [Option.bind_eq_bind, Option.some_bind]
  rw [traverseOpt_congr_some (g := fun k =>
    if idx + k < lin.length
    then mc.getD (w * 16 + k) 0 * lin.getD (idx + k) 0
    else 0)]
  · rfl
  · intro k hk
    rw [List.mem_range] at hk
    by_cases hguard : idx + k < lin.length
    · rw [if_pos hguard, if_pos hguard,
        get?_eq_some_getD (l := mc) (by omega) 0,
        get?_eq_some_getD (l := lin) (by omega) 0]
      rfl
    · rw [if_neg hguard, if_neg hguard]
      rfl

theorem linStep_isSome {raw : List ℕ} {dark : Option (List ℕ)}
    {polys : List ℚ} {scale : ℚ} {i : ℕ} (hraw : 134 ≤ raw.length)
    (hdark : ∀ d, dark = some d → 134 ≤ d.length) (hp : polys.length = 4)
    (hi : i < 128) : (linStep raw dark polys scale i).isSome = true := by
  rw [linStep, get?_eq_some_getD (l := raw) (by omega) 0]
  cases dark with
  | none =>
    dsimp only [Option.bind_eq_bind, Option.some_bind]
    rw [get?_eq_some_getD (l := polys) (by omega) 0,
      get?_eq_some_getD (l := polys) (by omega) 0,
      get?_eq_some_getD (l := polys) (by omega) 0,
      get?_eq_some_getD (l := polys) (by omega) 0]
    rfl
  | some d =>
    have hd := hdark d rfl
    dsimp only [Option.bind_eq_bind, Option.some_bind]
    rw [get?_eq_some_getD (l := d) (by omega) 0]
    dsimp only [Option.bind_eq_bind, Option.some_bind]
    rw [get?_eq_some_getD (l := polys) (by omega) 0,
      get?_eq_some_getD (l := polys) (by omega) 0,
      get?_eq_some_getD (l := polys) (by omega) 0,
      get?_eq_some_getD (l := polys) (by omega) 0]
    rfl

/-- C10: with well-formed table lengths but arbitrary matrix indices, the
pipeline is total (never reads out of bounds, hence never panics): every
access is guarded, and a tap whose source index `idx + k` falls at or
beyond the linearized samples is skipped, contributing zero to the band,
as the accompanying `bandAt` closed form states. -/
theorem processSpectrum_total (cfg : MunkiConfig) (intTime : ℚ)
    (dark : Option (List ℕ)) (white : Option (List ℚ)) (raw : List ℕ)
    (hg : Bool) (mode : MeasurementMode) (mi : List ℕ) (mc : List ℚ)
    (lin : List ℚ) (w idx : ℕ)
    (hraw : raw.length = 137)
    (hdark : ∀ d, dark = some d → d.length = 137)
    (hln : cfg.lin_normal.length = 4) (hlh : cfg.lin_high.length = 4)
    (hri : cfg.rmtx_index.length = 36) (hrc : cfg.rmtx_coef.length = 576)
    (hei : cfg.emtx_index.length = 36) (hec : cfg.emtx_coef.length = 576)
    (hamb : cfg.amb_coef.length = 36)
    (hwhite : ∀ fs, white = some fs → fs.length = 36)
    (hgetw : mi.get? w = some idx) (hmc : mc.length = 576) (hw : w < 36) :
    (processSpectrum cfg intTime dark white raw hg mode).isSome = true ∧
    bandAt mi mc lin w = some (((List.range 16).map (fun k =>
      if idx + k < lin.length
      then mc.getD (w * 16 + k) 0 * lin.getD (idx + k) 0
      else 0)).sum) := by
  refine ⟨?_, bandAt_eq_sum lin hgetw hmc hw⟩
  rw [processSpectrum]
  have hpolys : (if hg then cfg.lin_high else cfg.lin_normal).length = 4 := by
    cases hg <;> simpa
  have hlin : (linearize raw dark (if hg then cfg.lin_high else cfg.lin_normal)
      (1 / intTime)).isSome = true := by
    apply traverseOpt_isSome_of
    intro i hi
    rw [List.mem_range] at hi
    exact linStep_isSome (by omega)
      (fun d hd => by rw [hdark d hd]; omega) hpolys hi
  obtain ⟨L, hL⟩ := Option.isSome_iff_exists.mp hlin
  rw [hL]
  dsimp only [Option.bind_eq_bind, Option.some_bind]
  apply traverseOpt_isSome_of
  intro v hv
  rw [List.mem_range] at hv
  have hsel : (mtxSelect cfg mode).1.length = 36 ∧
      (mtxSelect cfg mode).2.length = 576 := by
    rw [mtxSelect]
    by_cases hm : mode = MeasurementMode.Emissive
    · rw [if_pos hm]; exact ⟨hei, hec⟩
    · rw [if_neg hm]; exact ⟨hri, hrc⟩
  have hidx2 : (mtxSelect cfg mode).1.get? v
      = some ((mtxSelect cfg mode).1.getD v 0) :=
    get?_eq_some_getD (by omega) 0
  rw [bandAt_eq_sum L hidx2 hsel.2 hv]
  dsimp only [Option.bind_eq_bind, Option.some_bind]
  cases mode with
  | Reflective =>
    cases white with
    | none => rfl
    | some fs =>
      rw [scaleBand, get?_eq_some_getD (l := fs)
        (by rw [hwhite fs rfl]; omega) 0]
      rfl
  | Emissive => rfl
  | Ambient =>
    rw [scaleBand, get?_eq_some_getD (l := cfg.amb_coef) (by omega) 0]
    rfl

/-- C10 witness: concrete instantiation on `cfgW` (whose indices all point
past the linearized range) with a 137-sample frame, a present dark
reference and present white factors. -/
theorem processSpectrum_total_witness :
    (processSpectrum cfgW 1 (some rawZeros) (some (List.replicate 36 1))
      rawZeros true MeasurementMode.Ambient).isSome = true ∧
    bandAt (List.replicate 36 1000) (List.replicate 576 0) [] 0
      = some (((List.range 16).map (fun k =>
        if 1000 + k < ([] : List ℚ).length
        then (List.replicate 576 (0 : ℚ)).getD (0 * 16 + k) 0
          * ([] : List ℚ).getD (1000 + k) 0
        else 0)).sum) :=
  processSpectrum_total cfgW 1 (some rawZeros) (some (List.replicate 36 1))
    rawZeros true MeasurementMode.Ambient (List.replicate 36 1000)
    (List.replicate 576 0) [] 0 1000
    (by decide) (fun d hd => by cases hd; decide)
    (by decide) (by decide) (by decide) (by decide) (by decide) (by decide)
    (by decide) (fun fs hfs => by cases hfs; decide)
    (by decide) (by decide) (by decide)

/-! ## `Munki::parse_eeprom` (`src/munki.rs`)

Bytes are a `List ℕ`; `word4 data i` is the little-endian 32-bit word at
byte offset `i`, with `getD … 0` reproducing the source's zero padding of
a trailing 1-3-byte tail (the tail bytes are placed in the low positions
of the 4-byte buffer, i.e. the word is zero-extended on the right).
The 32-bit values parsed as `f32::from_bits` are kept as their raw bit
patterns (`ℕ`), which is all the claims inspect. -/

def word4 (data : List ℕ) (i : ℕ) : ℕ :=
  data.getD i 0 + 256 * data.getD (i + 1) 0 + 65536 * data.getD (i + 2) 0
    + 16777216 * data.getD (i + 3) 0

/-- The checksum loop of `Munki::parse_eeprom`: walk the payload in 4-byte
steps, skip the single word at offset 8, accumulate with `wrapping_add`
(`% 2^32`), and fold a short trailing word zero-extended. -/
def checksumLoop (data : List ℕ) (i sum : ℕ) : ℕ :=
  if _h : i < data.length then
    if i = 8 then checksumLoop data (i + 4) sum
    else if i + 4 ≤ data.length then
      checksumLoop data (i + 4) ((sum + word4 data i) % 2 ^ 32)
    else (sum + word4 data i) % 2 ^ 32
  else sum
termination_by data.length - i
decreasing_by all_goals omega

structure EepromConfig where
  cal_version : ℕ
  serial_bytes : List ℕ
  rmtx_index : List ℕ
  rmtx_coef_bits : List ℕ
  emtx_index : List ℕ
  emtx_coef_bits : List ℕ
  lin_normal_bits : List ℕ
  lin_high_bits : List ℕ
  white_ref_bits : List ℕ
  amb_coef_bits : List ℕ
deriving DecidableEq, Repr

inductive EepromResult where
  | truncated (len : ℕ)
  | checksumMismatch (computed stored : ℕ)
  | ok (cfg : EepromConfig)
deriving DecidableEq, Repr

def EepromResult.isOk : EepromResult → Bool
  | EepromResult.ok _ => true
  | _ => false

/-- `Munki::parse_eeprom`: length guard (truncated under 8169 bytes, with
the checksum never reached), checksum verification against the u32 stored
at offset 8, then field extraction at the fixed offsets (the
linearization polynomials are read in reverse order, as in the source). -/
def parse_eeprom (data : List ℕ) : EepromResult :=
  if data.length < 8169 then EepromResult.truncated data.length
  else
    let stored := word4 data 8
    let sum := checksumLoop data 0 0
    if sum ≠ stored then EepromResult.checksumMismatch sum stored
    else EepromResult.ok
      { cal_version := data.getD 0 0 + 256 * data.getD 1 0
        serial_bytes := (List.range 16).map (fun i => data.getD (24 + i) 0)
        rmtx_index := (List.range 36).map (fun i => word4 data (40 + i * 4))
        rmtx_coef_bits :=
          (List.range 576).map (fun i => word4 data (184 + i * 4))
        emtx_index :=
          (List.range 36).map (fun i => word4 data (2488 + i * 4))
        emtx_coef_bits :=
          (List.range 576).map (fun i => word4 data (2632 + i * 4))
        lin_normal_bits :=
          (List.range 4).map (fun i => word4 data (4936 + (3 - i) * 4))
        lin_high_bits :=
          (List.range 4).map (fun i => word4 data (4952 + (3 - i) * 4))
        white_ref_bits :=
          (List.range 36).map (fun i => word4 data (4968 + i * 4))
        amb_coef_bits :=
          (List.range 36).map (fun i => word4 data (5256 + i * 4)) }

/-- Modelled from the spec: the wrapped 32-bit sum of all 4-byte
little-endian words of the payload except the single word at offset 8
(word index 2), the trailing partial word zero-extended.  For an
8169-byte payload the words sit at offsets `4*j` for `j < 2043`, the last
one being the single byte at offset 8168. -/
def checksumSpec (data : List ℕ) : ℕ :=
  ((((List.range 2043).filter (fun j => j ≠ 2)).map
    (fun j => word4 data (4 * j))).sum) % 2 ^ 32

theorem checksumLoop_closed (data : List ℕ) (hlen : data.length = 8169) :
    ∀ n j sum, n = 2043 - j → 3 ≤ j → j ≤ 2043 → sum < 2 ^ 32 →
    checksumLoop data (4 * j) sum
      = (sum + ((List.range' j (2043 - j)).map
          (fun t => word4 data (4 * t))).sum) % 2 ^ 32 := by
  intro n
  induction n with
  | zero =>
    intro j sum hn h3 hj hs
    have hj' : j = 2043 := by omega
    subst hj'
    unfold checksumLoop
    rw [dif_neg (by omega)]
    simp
    omega
  | succ m ih =>
    intro j sum hn h3 hj hs
    have hjlt : j < 2043 := by omega
    have hrange : 2043 - j = (2043 - (j + 1)) + 1 := by omega
    rw [hrange, List.range'_succ]
    by_cases htail : j = 2042
    · subst htail
      unfold checksumLoop
      rw [dif_pos (by omega), if_neg (by omega), if_neg (by omega)]
      simp
    · have hstep : j + 1 ≤ 2042 := by omega
      unfold checksumLoop
      rw [dif_pos (by omega), if_neg (by omega), if_pos (by omega)]
      rw [show 4 * j + 4 = 4 * (j + 1) by ring]
      rw [ih (j + 1) ((sum + word4 data (4 * j)) % 2 ^ 32) (by omega)
        (by omega) (by omega) (Nat.mod_lt _ (by norm_num))]
      rw [List.map_cons, List.sum_cons, Nat.mod_add_mod]
      ring_nf
      rw [Nat.add_assoc]

theorem filter_range_2043 :
    (List.range 2043).filter (fun j => j ≠ 2)
      = 0 :: 1 :: List.range' 3 2040 := by
  have h1 : List.range 2043 = 0 :: 1 :: 2 :: List.range' 3 2040 := by
    rw [List.range_eq_range']
    rw [show 2043 = 2042 + 1 by rfl, List.range'_succ]
    rw [show 2042 = 2041 + 1 by rfl, List.range'_succ]
    rw [show 2041 = 2040 + 1 by rfl, List.range'_succ]
  rw [h1]
  rw [List.filter_cons, List.filter_cons, List.filter_cons]
  norm_num
  omega

theorem checksumLoop_eq_spec (data : List ℕ) (hlen : data.length = 8169) :
    checksumLoop data 0 0 = checksumSpec data := by
  have h0 : checksumLoop data 0 0
      = checksumLoop data 4 ((0 + word4 data 0) % 2 ^ 32) := by
    conv_lhs => rw [checksumLoop.eq_def]
    rw [dif_pos (by omega), if_neg (by omega), if_pos (by omega)]
  have h1 : checksumLoop data 4 ((0 + word4 data 0) % 2 ^ 32)
      = checksumLoop data 8
        ((((0 + word4 data 0) % 2 ^ 32) + word4 data 4) % 2 ^ 32) := by
    conv_lhs => rw [checksumLoop.eq_def]
    rw [dif_pos (by omega), if_neg (by omega), if_pos (by omega)]
  have h2 : checksumLoop data 8
        ((((0 + word4 data 0) % 2 ^ 32) + word4 data 4) % 2 ^ 32)
      = checksumLoop data 12
        ((((0 + word4 data 0) % 2 ^ 32) + word4 data 4) % 2 ^ 32) := by
    conv_lhs => rw [checksumLoop.eq_def]
    rw [dif_pos (by omega), if_pos rfl]
  rw [h0, h1, h2]
  rw [show (12 : ℕ) = 4 * 3 by rfl]
  rw [checksumLoop_closed data hlen (2043 - 3) 3 _ rfl (by omega) (by omega)
    (Nat.mod_lt _ (by norm_num))]
  rw [checksumSpec, filter_range_2043]
  rw [List.map_cons, List.map_cons, List.sum_cons, List.sum_cons,
    Nat.mod_add_mod, Nat.add_assoc, Nat.mod_add_mod]
  norm_num [Nat.add_assoc]

/-- C3: for a payload of exactly 8169 bytes, EEPROM decoding succeeds if
and only if the wrapped 32-bit sum of all 4-byte little-endian words
except the word at offset 8 (trailing tail byte zero-extended on the
right) equals the u32 stored at offset 8; any shorter payload is rejected
as truncated by the length guard that precedes the checksum walk,
whatever its contents. -/
theorem parse_eeprom_checksum (data d : List ℕ) (hlen : data.length = 8169)
    (hd : d.length < 8169) :
    ((parse_eeprom data).isOk = true ↔ checksumSpec data = word4 data 8) ∧
    parse_eeprom d = EepromResult.truncated d.length := by
  constructor
  · rw [parse_eeprom, if_neg (by omega)]
    dsimp only
    rw [checksumLoop_eq_spec data hlen]
    by_cases h : checksumSpec data = word4 data 8
    · rw [if_neg (by simpa using h)]
      simp [EepromResult.isOk, h]
    · rw [if_pos (by simpa using h)]
      simp [EepromResult.isOk, h]
  · rw [parse_eeprom, if_pos hd]

/-- C3 witness: the all-zero 8169-byte payload decodes successfully (its
checksum and stored word are both zero), and the empty payload is
rejected as truncated. -/
theorem parse_eeprom_checksum_witness :
    (((parse_eeprom (List.replicate 8169 0)).isOk = true ↔
      checksumSpec (List.replicate 8169 0)
        = word4 (List.replicate 8169 0) 8) ∧
    parse_eeprom [] = EepromResult.truncated 0) :=
  parse_eeprom_checksum (List.replicate 8169 0) []
    (by rw [List.length_replicate]) (by norm_num)

/-! ## `SpectralData::resample` (`crates/spectro-core/src/spectrum.rs`)

The `while current_wl <= end + 1e-3` loops are embedded as maps over
`List.range n` where `n` counts the loop iterations (`current_wl` takes
the exact values `start + k*step` in rational arithmetic); for a
non-positive `step` with `start ≤ end + 1e-3` the source loop does not
terminate, which the embedding maps to zero iterations.  Direct slice
indexing (`self.wavelengths[0]`, in-range by the claims' grid
hypotheses) is embedded with `getD`. -/

/-- `SpectralData::sprague_interpolate` (the private 6-point kernel used
by `resample`): value at fractional position `x ∈ [0,1]` between `y2` and
`y3`. -/
def CoreSpectralData.sprague_interpolate (x y0 y1 y2 y3 y4 y5 : ℚ) : ℚ :=
  let x2 := x * x
  let x3 := x2 * x
  let x4 := x3 * x
  let x5 := x4 * x
  let a0 := y2
  let a1 := (2 * y0 - 16 * y1 + 16 * y3 - 2 * y4) / 24
  let a2 := (-y0 + 16 * y1 - 30 * y2 + 16 * y3 - y4) / 24
  let a3 := (-9 * y0 + 39 * y1 - 70 * y2 + 66 * y3 - 33 * y4 + 7 * y5) / 120
  let a4 := (13 * y0 - 64 * y1 + 126 * y2 - 124 * y3 + 61 * y4 - 12 * y5) / 120
  let a5 := (-5 * y0 + 25 * y1 - 50 * y2 + 50 * y3 - 25 * y4 + 5 * y5) / 120
  a0 + a1 * x + a2 * x2 + a3 * x3 + a4 * x4 + a5 * x5

/-- Number of iterations of the `while current_wl <= end + 1e-3` loop. -/
def resampleCount (start stop step : ℚ) : ℕ :=
  if 0 < step ∧ start ≤ stop + 1 / 1000 then
    (⌊(stop + 1 / 1000 - start) / step⌋).toNat + 1
  else 0

/-- The body of the resampling loop: edge-padded source values, fractional
position `t`, and either the Sprague kernel or the linear/clamping
fallback, exactly as in the source. -/
def resampleValueAt (values : List ℚ) (ostart ostep : ℚ) (cur : ℚ) : ℚ :=
  let n := values.length
  let vFirst := values.getD 0 0
  let vLast := values.getD (n - 1) 0
  let padded := vFirst :: vFirst :: (values ++ [vLast, vLast, vLast])
  let t := (cur - ostart) / ostep
  let i : ℤ := ⌊t⌋
  let x : ℚ := t - (i : ℚ)
  let idx : ℤ := i + 2
  if idx < 2 ∨ idx + 3 ≥ (n : ℤ) + 5 then
    if cur ≤ ostart then vFirst
    else if cur ≥ ostart + ((n : ℚ) - 1) * ostep then vLast
    else
      let iIdx := (max i 0).toNat
      let v0 := values.getD iIdx 0
      let v1 := values.getD (min (iIdx + 1) (n - 1)) 0
      v0 + x * (v1 - v0)
  else
    CoreSpectralData.sprague_interpolate x
      (padded.getD (idx.toNat - 2) 0) (padded.getD (idx.toNat - 1) 0)
      (padded.getD idx.toNat 0) (padded.getD (idx.toNat + 1) 0)
      (padded.getD (idx.toNat + 2) 0) (padded.getD (idx.toNat + 3) 0)

/-- `SpectralData::resample`: resample onto the grid
`start, start+step, …` up to `end + 1e-3`, using Sprague interpolation
with edge padding (2 copies before, 3 after). -/
def CoreSpectralData.resample (sd : CoreSpectralData)
    (start stop step : ℚ) : CoreSpectralData :=
  if sd.values.isEmpty then { wavelengths := [], values := [], mode := sd.mode }
  else
    let ostart := sd.wavelengths.getD 0 0
    let ostep := if 1 < sd.wavelengths.length
      then sd.wavelengths.getD 1 0 - sd.wavelengths.getD 0 0
      else 10
    let n := resampleCount start stop step
    { wavelengths := (List.range n).map (fun k : ℕ => start + (k : ℚ) * step)
      values := (List.range n).map (fun k : ℕ =>
        resampleValueAt sd.values ostart ostep (start + (k : ℚ) * step))
      mode := sd.mode }

theorem sprague_at_zero (y0 y1 y2 y3 y4 y5 : ℚ) :
    CoreSpectralData.sprague_interpolate 0 y0 y1 y2 y3 y4 y5 = y2 := by
  rw [CoreSpectralData.sprague_interpolate]
  ring

theorem getD_map_range {f : ℕ → ℚ} {n i : ℕ} (h : i < n) (d : ℚ) :
    ((List.range n).map f).getD i d = f i := by
  rw [List.getD_eq_getD_get?, List.get?_map, List.get?_range h]
  rfl

theorem map_range_eq_list {g : ℕ → ℚ} {values : List ℚ} {n : ℕ}
    (hlen : values.length = n) (h : ∀ k < n, g k = values.getD k 0) :
    (List.range n).map g = values := by
  apply List.ext_get?
  intro k
  by_cases hk : k < n
  · rw [List.get?_map, List.get?_range hk]
    show some (g k) = values.get? k
    rw [h k hk, get?_eq_some_getD (by omega) 0]
  · rw [List.get?_eq_none.mpr, List.get?_eq_none.mpr]
    · omega
    · simpa using hk

/-- At an original sample position `w0 + k*h` of a uniform grid with
origin `w0` and positive step `h`, the resampling body takes the Sprague
branch with fractional position `x = 0` and returns the sample exactly. -/
theorem resampleValueAt_at_sample (values : List ℚ) (w0 h : ℚ) (k : ℕ)
    (hh : 0 < h) (hk : k < values.length) :
    resampleValueAt values w0 h (w0 + (k : ℚ) * h) = values.getD k 0 := by
  rw [resampleValueAt]
  have ht : (w0 + (k : ℚ) * h - w0) / h = (k : ℚ) := by
    field_simp
  rw [ht, Int.floor_natCast]
  rw [if_neg (by push_cast; omega)]
  rw [show ((k : ℚ) - (((k : ℕ) : ℤ) : ℚ)) = 0 by push_cast; ring]
  rw [show (((k : ℕ) : ℤ) + 2).toNat = k + 2 by omega]
  rw [sprague_at_zero]
  rw [show k + 2 = (k + 1) + 1 from rfl, List.getD_cons_succ,
    List.getD_cons_succ]
  exact List.getD_append _ _ _ _ hk

theorem resampleCount_same_grid (w0 h : ℚ) (n : ℕ) (hn : 1 ≤ n)
    (hh : 1 / 1000 < h) :
    resampleCount w0 (w0 + ((n : ℚ) - 1) * h) h = n := by
  have hpos : (0 : ℚ) < h := lt_trans (by norm_num) hh
  rw [resampleCount, if_pos]
  · have harg : (w0 + ((n : ℚ) - 1) * h + 1 / 1000 - w0) / h
        = ((n : ℚ) - 1) + 1 / (1000 * h) := by
      field_simp
      ring
    rw [harg]
    have hcast : ((n : ℚ) - 1) = (((n : ℤ) - 1 : ℤ) : ℚ) := by push_cast; ring
    rw [hcast, Int.floor_int_add]
    have hfrac : ⌊1 / (1000 * h)⌋ = 0 := by
      apply Int.floor_eq_zero_iff.mpr
      constructor
      · positivity
      · rw [div_lt_one (by positivity)]
        linarith
    rw [hfrac]
    omega
  · constructor
    · exact hpos
    · have hge : (0 : ℚ) ≤ ((n : ℚ) - 1) * h := by
        apply mul_nonneg _ (le_of_lt hpos)
        have : (1 : ℚ) ≤ (n : ℚ) := by exact_mod_cast hn
        linarith
      linarith

/-- C8: resampling a spectrum on a uniform grid with positive step
`h > 1e-3` onto the same grid is the identity: at every original sample
position the fractional position is `x = 0` and the Sprague kernel
returns `y2`, the original sample, exactly (so in particular within
1e-4). -/
theorem resample_same_grid (values : List ℚ) (w0 h : ℚ) (n : ℕ)
    (mode : CoreMode) (hn : 2 ≤ n) (hlen : values.length = n)
    (hh : 1 / 1000 < h) :
    (CoreSpectralData.mk ((List.range n).map (fun i : ℕ => w0 + (i : ℚ) * h))
        values mode).resample w0 (w0 + ((n : ℚ) - 1) * h) h
      = CoreSpectralData.mk
          ((List.range n).map (fun i : ℕ => w0 + (i : ℚ) * h)) values mode := by
  have hpos : (0 : ℚ) < h := lt_trans (by norm_num) hh
  rw [CoreSpectralData.resample]
  rw [if_neg (by
    simp only [List.isEmpty_iff]
    intro h0
    rw [h0] at hlen
    simp at hlen
    omega)]
  dsimp only
  have hwl0 : ((List.range n).map (fun i : ℕ => w0 + (i : ℚ) * h)).getD 0 0
      = w0 := by
    rw [getD_map_range (by omega)]
    push_cast
    ring
  have hwl1 : ((List.range n).map (fun i : ℕ => w0 + (i : ℚ) * h)).getD 1 0
      = w0 + h := by
    rw [getD_map_range (by omega)]
    push_cast
    ring
  have hlength : 1 < ((List.range n).map
      (fun i : ℕ => w0 + (i : ℚ) * h)).length := by
    rw [List.length_map, List.length_range]
    omega
  rw [if_pos hlength, hwl0, hwl1]
  rw [show w0 + h - w0 = h by ring]
  rw [resampleCount_same_grid w0 h n (by omega) hh]
  have hvals : (List.range n).map (fun k : ℕ =>
      resampleValueAt values w0 h (w0 + (k : ℚ) * h)) = values :=
    map_range_eq_list hlen (fun k hk =>
      resampleValueAt_at_sample values w0 h k hpos (by omega))
  rw [hvals]

/-- C8 witness: a concrete 4-point spectrum on the 380-710 nm @ 10 nm
grid resamples onto itself unchanged. -/
theorem resample_same_grid_witness :
    (CoreSpectralData.mk
        ((List.range 4).map (fun i : ℕ => 380 + (i : ℚ) * 10))
        [1, 2, 3, 4] CoreMode.Emissive).resample 380 (380 + ((4 : ℚ) - 1) * 10) 10
      = CoreSpectralData.mk
          ((List.range 4).map (fun i : ℕ => 380 + (i : ℚ) * 10))
          [1, 2, 3, 4] CoreMode.Emissive :=
  resample_same_grid [1, 2, 3, 4] 380 10 4 CoreMode.Emissive
    (by norm_num) (by norm_num) (by norm_num)

/-! ## `Lab::delta_e_2000` (`crates/spectro-core/src/colorimetry.rs`)

Embedded over `ℝ` with Mathlib's `Real.sin`/`cos`/`exp`/`sqrt`/`arctan`
standing in for the `f32` library functions.  The source's straight-line
`let` chain is split into named subterms (one per source expression) so
the symmetry argument can be stated per piece. -/

structure Lab where
  l : ℝ
  a : ℝ
  b : ℝ

noncomputable def toRadians (x : ℝ) : ℝ := x * (Real.pi / 180)

noncomputable def toDegrees (x : ℝ) : ℝ := x * (180 / Real.pi)

/-- Four-quadrant arctangent, the contract of `f32::atan2(self, other)`
(`y.atan2(x)`). -/
noncomputable def atan2 (y x : ℝ) : ℝ :=
  if 0 < x then Real.arctan (y / x)
  else if x < 0 ∧ 0 ≤ y then Real.arctan (y / x) + Real.pi
  else if x < 0 ∧ y < 0 then Real.arctan (y / x) - Real.pi
  else if x = 0 ∧ 0 < y then Real.pi / 2
  else if x = 0 ∧ y < 0 then -(Real.pi / 2)
  else 0

/-- The `get_hp` closure: hue angle `atan2(b, a')` in degrees normalized
to `[0, 360)`, with the `atan2(0,0) → 0` guard. -/
noncomputable def getHp (b ap : ℝ) : ℝ :=
  if b = 0 ∧ ap = 0 then 0
  else if toDegrees (atan2 b ap) < 0 then toDegrees (atan2 b ap) + 360
  else toDegrees (atan2 b ap)

/-- The `d_hp_deg` computation: hue difference with the cross-360
correction, forced to 0 when `c1p * c2p = 0`. -/
noncomputable def dhpDeg (c1p c2p h1p h2p : ℝ) : ℝ :=
  if c1p * c2p ≠ 0 then
    if |h2p - h1p| > 180 then
      if h2p ≤ h1p then h2p - h1p + 360 else h2p - h1p - 360
    else h2p - h1p
  else 0

/-- The `avg_hp` computation, with its own cross-360 correction; when
`c1p * c2p = 0` the source leaves the undivided sum. -/
noncomputable def avgHp (c1p c2p h1p h2p : ℝ) : ℝ :=
  if c1p * c2p ≠ 0 then
    if |h1p - h2p| > 180 then
      if h1p + h2p < 360 then (h1p + h2p + 360) / 2
      else (h1p + h2p - 360) / 2
    else (h1p + h2p) / 2
  else h1p + h2p

/-- `ΔH' = 2·√(C'₁C'₂)·sin(Δh'/2)`. -/
noncomputable def dHp (c1p c2p h1p h2p : ℝ) : ℝ :=
  2 * Real.sqrt (c1p * c2p)
    * Real.sin (toRadians (dhpDeg c1p c2p h1p h2p / 2))

/-- The `T` weighting term. -/
noncomputable def tTerm (ah : ℝ) : ℝ :=
  1 - 0.17 * Real.cos (toRadians (ah - 30))
    + 0.24 * Real.cos (toRadians (2 * ah))
    + 0.32 * Real.cos (toRadians (3 * ah + 6))
    - 0.20 * Real.cos (toRadians (4 * ah - 63))

noncomputable def sLTerm (al : ℝ) : ℝ :=
  1 + (0.015 * (al - 50) ^ 2) / Real.sqrt (20 + (al - 50) ^ 2)

noncomputable def sCTerm (ac : ℝ) : ℝ := 1 + 0.045 * ac

noncomputable def sHTerm (ac ah : ℝ) : ℝ := 1 + 0.015 * ac * tTerm ah

/-- The rotation term `R_T = -R_C · sin(2·Δθ)`. -/
noncomputable def rtTerm (ah ac : ℝ) : ℝ :=
  -(2 * Real.sqrt (ac ^ 7 / (ac ^ 7 + 25 ^ 7)))
    * Real.sin (toRadians (2 * (30 * Real.exp (-(((ah - 275) / 25) ^ 2)))))

/-- The tail of `delta_e_2000` after `L, C', h'` of both colors are known
(`k_l = k_c = k_h = 1` as in the source). -/
noncomputable def deParams (l1 c1p h1p l2 c2p h2p : ℝ) : ℝ :=
  Real.sqrt (((l2 - l1) / (1 * sLTerm ((l1 + l2) / 2))) ^ 2
    + ((c2p - c1p) / (1 * sCTerm ((c1p + c2p) / 2))) ^ 2
    + (dHp c1p c2p h1p h2p
        / (1 * sHTerm ((c1p + c2p) / 2) (avgHp c1p c2p h1p h2p))) ^ 2
    + rtTerm (avgHp c1p c2p h1p h2p) ((c1p + c2p) / 2)
        * ((c2p - c1p) / (1 * sCTerm ((c1p + c2p) / 2)))
        * (dHp c1p c2p h1p h2p
            / (1 * sHTerm ((c1p + c2p) / 2) (avgHp c1p c2p h1p h2p))))

noncomputable def chroma (a b : ℝ) : ℝ := Real.sqrt (a ^ 2 + b ^ 2)

/-- The `G` factor computed from the mean chroma of the two colors. -/
noncomputable def gFactor (x y : Lab) : ℝ :=
  0.5 * (1 - Real.sqrt (((chroma x.a x.b + chroma y.a y.b) / 2) ^ 7
    / (((chroma x.a x.b + chroma y.a y.b) / 2) ^ 7 + 25 ^ 7)))

/-- `Lab::delta_e_2000` (Sharma 2005 reference structure, as in the
source). -/
noncomputable def Lab.delta_e_2000 (x y : Lab) : ℝ :=
  deParams x.l (chroma ((1 + gFactor x y) * x.a) x.b)
    (getHp x.b ((1 + gFactor x y) * x.a))
    y.l (chroma ((1 + gFactor x y) * y.a) y.b)
    (getHp y.b ((1 + gFactor x y) * y.a))

theorem dhpDeg_swap (c1p c2p h1p h2p : ℝ) :
    dhpDeg c2p c1p h2p h1p = -(dhpDeg c1p c2p h1p h2p) := by
  unfold dhpDeg
  by_cases hc : c1p * c2p = 0
  · rw [if_neg (by rw [mul_comm]; exact not_not_intro hc),
      if_neg (not_not_intro hc), neg_zero]
  · rw [if_pos (by rw [mul_comm]; exact hc), if_pos hc]
    by_cases habs : |h2p - h1p| > 180
    · rw [if_pos (show |h1p - h2p| > 180 by rwa [abs_sub_comm]),
        if_pos habs]
      rcases lt_abs.mp habs with hgt | hlt
      · rw [if_pos (show h1p ≤ h2p by linarith),
          if_neg (show ¬(h2p ≤ h1p) from not_le.mpr (by linarith))]
        ring
      · rw [if_neg (show ¬(h1p ≤ h2p) from not_le.mpr (by linarith)),
          if_pos (show h2p ≤ h1p by linarith)]
        ring
    · rw [if_neg (fun h => habs (by rwa [abs_sub_comm] at h)), if_neg habs]
      ring

theorem avgHp_swap (c1p c2p h1p h2p : ℝ) :
    avgHp c2p c1p h2p h1p = avgHp c1p c2p h1p h2p := by
  unfold avgHp
  by_cases hc : c1p * c2p = 0
  · rw [if_neg (by rw [mul_comm]; exact not_not_intro hc),
      if_neg (not_not_intro hc)]
    ring
  · rw [if_pos (by rw [mul_comm]; exact hc), if_pos hc]
    by_cases habs : |h1p - h2p| > 180
    · rw [if_pos (show |h2p - h1p| > 180 by rwa [abs_sub_comm]),
        if_pos habs]
      by_cases hlt : h1p + h2p < 360
      · rw [if_pos (show h2p + h1p < 360 by linarith), if_pos hlt]
        ring
      · rw [if_neg (show ¬(h2p + h1p < 360) from
          not_lt.mpr (by linarith [not_lt.mp hlt])), if_neg hlt]
        ring
    · rw [if_neg (fun h => habs (by rwa [abs_sub_comm] at h)), if_neg habs]
      ring

theorem dHp_swap (c1p c2p h1p h2p : ℝ) :
    dHp c2p c1p h2p h1p = -(dHp c1p c2p h1p h2p) := by
  unfold dHp
  rw [dhpDeg_swap, mul_comm c2p c1p]
  rw [show toRadians (-dhpDeg c1p c2p h1p h2p / 2)
      = -(toRadians (dhpDeg c1p c2p h1p h2p / 2)) by unfold toRadians; ring]
  rw [Real.sin_neg]
  ring

theorem deParams_swap (l1 c1p h1p l2 c2p h2p : ℝ) :
    deParams l2 c2p h2p l1 c1p h1p = deParams l1 c1p h1p l2 c2p h2p := by
  unfold deParams
  rw [dHp_swap, avgHp_swap, add_comm l2 l1, add_comm c2p c1p]
  congr 1
  ring

theorem gFactor_symm (x y : Lab) : gFactor y x = gFactor x y := by
  unfold gFactor
  rw [add_comm (chroma y.a y.b) (chroma x.a x.b)]

/-- C6: ΔE2000 is symmetric.  Every subexpression of the source is either
symmetric under swapping the two colors or exactly negated, and only
squares and pairwise products of the negated quantities reach the result,
so the two orders agree exactly — in particular within 1e-6. -/
theorem delta_e_2000_symm (x y : Lab) :
    Lab.delta_e_2000 x y = Lab.delta_e_2000 y x ∧
    |Lab.delta_e_2000 x y - Lab.delta_e_2000 y x| ≤ 1 / 1000000 := by
  have h : Lab.delta_e_2000 x y = Lab.delta_e_2000 y x := by
    unfold Lab.delta_e_2000
    conv_rhs => rw [gFactor_symm x y]
    generalize gFactor x y = G
    generalize chroma ((1 + G) * x.a) x.b = A
    generalize getHp x.b ((1 + G) * x.a) = B
    generalize chroma ((1 + G) * y.a) y.b = C
    generalize getHp y.b ((1 + G) * y.a) = D
    exact (deParams_swap x.l A B y.l C D).symm
  refine ⟨h, ?_⟩
  rw [h, sub_self, abs_zero]
  norm_num

/-! ## `chromatic_adaptation::bradford_adapt`
(`crates/spectro-core/src/colorimetry.rs`)

Pure rational arithmetic (matrix products and per-channel scaling), so the
embedding is exact over `ℚ`.  `illuminant::D50` and `illuminant::D65` are
the source's 2° white points. -/

structure XYZ where
  x : ℚ
  y : ℚ
  z : ℚ
deriving DecidableEq, Repr

def D50 : XYZ := { x := 0.96422, y := 1.0, z := 0.82521 }

def D65 : XYZ := { x := 0.95047, y := 1.0, z := 1.08883 }

/-- `bradford_adapt`: forward Bradford matrix `M`, the source's 7-decimal
approximate inverse, per-channel scaling by `dst_lms / src_lms`. -/
def bradford_adapt (xyz srcWp dstWp : XYZ) : XYZ :=
  let srcL := 0.8951 * srcWp.x + 0.2664 * srcWp.y + (-0.1614) * srcWp.z
  let srcM := (-0.7502) * srcWp.x + 1.7135 * srcWp.y + 0.0367 * srcWp.z
  let srcS := 0.0389 * srcWp.x + (-0.0685) * srcWp.y + 1.0296 * srcWp.z
  let dstL := 0.8951 * dstWp.x + 0.2664 * dstWp.y + (-0.1614) * dstWp.z
  let dstM := (-0.7502) * dstWp.x + 1.7135 * dstWp.y + 0.0367 * dstWp.z
  let dstS := 0.0389 * dstWp.x + (-0.0685) * dstWp.y + 1.0296 * dstWp.z
  let lmsL := 0.8951 * xyz.x + 0.2664 * xyz.y + (-0.1614) * xyz.z
  let lmsM := (-0.7502) * xyz.x + 1.7135 * xyz.y + 0.0367 * xyz.z
  let lmsS := 0.0389 * xyz.x + (-0.0685) * xyz.y + 1.0296 * xyz.z
  let aL := lmsL * (dstL / srcL)
  let aM := lmsM * (dstM / srcM)
  let aS := lmsS * (dstS / srcS)
  { x := 0.9869929 * aL + (-0.1470543) * aM + 0.1599627 * aS
    y := 0.4323053 * aL + 0.5183603 * aM + 0.0492912 * aS
    z := (-0.0085287) * aL + 0.0400428 * aM + 0.9684867 * aS }

/-- C7 counterexample: at the source's D50 white point (whose Bradford LMS
components are nonzero), adapting `(1,0,0)` from D50 to D50 does not
return `(1,0,0)` exactly: the 7-decimal inverse matrix is not the exact
inverse of `M`, so `M⁻¹·(M·X) ≠ X`. -/
theorem bradford_identity_not_exact :
    (0.8951 * D50.x + 0.2664 * D50.y + (-0.1614) * D50.z ≠ 0 ∧
     (-0.7502) * D50.x + 1.7135 * D50.y + 0.0367 * D50.z ≠ 0 ∧
     0.0389 * D50.x + (-0.0685) * D50.y + 1.0296 * D50.z ≠ 0) ∧
    bradford_adapt { x := 1, y := 0, z := 0 } D50 D50
      ≠ { x := 1, y := 0, z := 0 } := by
  refine ⟨⟨by norm_num [D50], by norm_num [D50], by norm_num [D50]⟩, ?_⟩
  intro h
  have hx := congrArg XYZ.x h
  simp only [bradford_adapt, D50] at hx
  norm_num at hx

theorem abs_lin_bound (c0 c1 c2 e x y z : ℚ) (h0 : |c0| ≤ e)
    (h1 : |c1| ≤ e) (h2 : |c2| ≤ e) :
    |c0 * x + c1 * y + c2 * z| ≤ e * (|x| + |y| + |z|) := by
  calc |c0 * x + c1 * y + c2 * z|
      ≤ |c0 * x + c1 * y| + |c2 * z| := abs_add _ _
    _ ≤ |c0 * x| + |c1 * y| + |c2 * z| :=
        add_le_add_right (abs_add _ _) _
    _ = |c0| * |x| + |c1| * |y| + |c2| * |z| := by
        rw [abs_mul, abs_mul, abs_mul]
    _ ≤ e * |x| + e * |y| + e * |z| := by
        refine add_le_add (add_le_add ?_ ?_) ?_ <;>
          exact mul_le_mul_of_nonneg_right (by assumption) (abs_nonneg _)
    _ = e * (|x| + |y| + |z|) := by ring


/-- C7 (amended): with nonzero Bradford LMS components of the white point
`A`, `bradford_adapt(X, A, A)` agrees with `X` to within
`1e-7 * (|x|+|y|+|z|)` in every component rather than exactly (the
per-channel scales are exactly 1 but the source's 7-decimal inverse
leaves the fixed residue `M⁻¹M - I`); and the round trip through the
source's doc-example white points, D50 → D65 → D50, agrees with `X` to
within `1e-5 * (|x|+|y|+|z|)` in every component. -/
theorem bradford_adapt_bounds (X A : XYZ)
    (hL : 0.8951 * A.x + 0.2664 * A.y + (-0.1614) * A.z ≠ 0)
    (hM : (-0.7502) * A.x + 1.7135 * A.y + 0.0367 * A.z ≠ 0)
    (hS : 0.0389 * A.x + (-0.0685) * A.y + 1.0296 * A.z ≠ 0) :
    (|(bradford_adapt X A A).x - X.x|
        ≤ 1 / 10 ^ 7 * (|X.x| + |X.y| + |X.z|) ∧
     |(bradford_adapt X A A).y - X.y|
        ≤ 1 / 10 ^ 7 * (|X.x| + |X.y| + |X.z|) ∧
     |(bradford_adapt X A A).z - X.z|
        ≤ 1 / 10 ^ 7 * (|X.x| + |X.y| + |X.z|)) ∧
    (|(bradford_adapt (bradford_adapt X D50 D65) D65 D50).x - X.x|
        ≤ 1 / 10 ^ 5 * (|X.x| + |X.y| + |X.z|) ∧
     |(bradford_adapt (bradford_adapt X D50 D65) D65 D50).y - X.y|
        ≤ 1 / 10 ^ 5 * (|X.x| + |X.y| + |X.z|) ∧
     |(bradford_adapt (bradford_adapt X D50 D65) D65 D50).z - X.z|
        ≤ 1 / 10 ^ 5 * (|X.x| + |X.y| + |X.z|)) := by
  constructor
  · have hx : (bradford_adapt X A A).x
        = X.x + ((371 : ℚ) / 12500000000 * X.x
          + (-993 : ℚ) / 12500000000 * X.y
          + (981 : ℚ) / 20000000000 * X.z) := by
      simp only [bradford_adapt]
      rw [div_self hL, div_self hM, div_self hS]
      ring
    have hy : (bradford_adapt X A A).y
        = X.y + ((93 : ℚ) / 20000000000 * X.x
          + (5877 : ℚ) / 100000000000 * X.y
          + (-3289 : ℚ) / 100000000000 * X.z) := by
      simp only [bradford_adapt]
      rw [div_self hL, div_self hM, div_self hS]
      ring
    have hz : (bradford_adapt X A A).z
        = X.z + ((-153 : ℚ) / 10000000000 * X.x
          + (-4683 : ℚ) / 100000000000 * X.y
          + (463 : ℚ) / 50000000000 * X.z) := by
      simp only [bradford_adapt]
      rw [div_self hL, div_self hM, div_self hS]
      ring
    refine ⟨?_, ?_, ?_⟩
    · rw [hx, add_sub_cancel_left]
      exact abs_lin_bound _ _ _ _ X.x X.y X.z (abs_le.mpr (by norm_num))
        (abs_le.mpr (by norm_num)) (abs_le.mpr (by norm_num))
    · rw [hy, add_sub_cancel_left]
      exact abs_lin_bound _ _ _ _ X.x X.y X.z (abs_le.mpr (by norm_num))
        (abs_le.mpr (by norm_num)) (abs_le.mpr (by norm_num))
    · rw [hz, add_sub_cancel_left]
      exact abs_lin_bound _ _ _ _ X.x X.y X.z (abs_le.mpr (by norm_num))
        (abs_le.mpr (by norm_num)) (abs_le.mpr (by norm_num))
  · have hx : (bradford_adapt (bradford_adapt X D50 D65) D65 D50).x
        = X.x + ((46702547474244419800385941583042454562445090970241110317285060854027 : ℚ) / 740141431564339348677501789834031419950621808362669100000000000000000000000
            * X.x
          + (-23912619530426594387817663981838272020070111468067979028880162838137 : ℚ) / 148028286312867869735500357966806283990124361672533820000000000000000000000
            * X.y
          + (4775184715707748323901899250185767868553661770591463866584381932851 : ℚ) / 41118968420241074926527877213001745552812322686814950000000000000000000000
            * X.z) := by
      simp only [bradford_adapt, D50, D65]
      ring
    have hy : (bradford_adapt (bradford_adapt X D50 D65) D65 D50).y
        = X.y + ((670286093837452194590268195497326846724248466244403983009069500591 : ℚ) / 82237936840482149853055754426003491105624645373629900000000000000000000000
            * X.x
          + (1916212234538413476627468056951227379290752389350336368539661065919 : ℚ) / 16447587368096429970611150885200698221124929074725980000000000000000000000
            * X.y
          + (-2999392156925104453266504787227533354480594601524300805148731200603 : ℚ) / 41118968420241074926527877213001745552812322686814950000000000000000000000
            * X.z) := by
      simp only [bradford_adapt, D50, D65]
      ring
    have hz : (bradford_adapt (bradford_adapt X D50 D65) D65 D50).z
        = X.z + ((-1570753365373537235209857877247084900242691397453894147767920331023 : ℚ) / 61678452630361612389791815819502618329218484030222425000000000000000000000
            * X.x
          + (-1989059165039881902332353815030279361074898117772344860572038747189 : ℚ) / 24671381052144644955916726327801047331687393612088970000000000000000000000
            * X.y
          + (325176233667729341164291253129640217592008880266086449802599852831 : ℚ) / 20559484210120537463263938606500872776406161343407475000000000000000000000
            * X.z) := by
      simp only [bradford_adapt, D50, D65]
      ring
    refine ⟨?_, ?_, ?_⟩
    · rw [hx, add_sub_cancel_left]
      exact abs_lin_bound _ _ _ _ X.x X.y X.z (abs_le.mpr (by norm_num))
        (abs_le.mpr (by norm_num)) (abs_le.mpr (by norm_num))
    · rw [hy, add_sub_cancel_left]
      exact abs_lin_bound _ _ _ _ X.x X.y X.z (abs_le.mpr (by norm_num))
        (abs_le.mpr (by norm_num)) (abs_le.mpr (by norm_num))
    · rw [hz, add_sub_cancel_left]
      exact abs_lin_bound _ _ _ _ X.x X.y X.z (abs_le.mpr (by norm_num))
        (abs_le.mpr (by norm_num)) (abs_le.mpr (by norm_num))

/-- C7 witness: the amended bounds instantiated at `X = (1, 2, 3)` and the
D50 white point (whose LMS components are nonzero). -/
theorem bradford_adapt_bounds_witness :
    (|(bradford_adapt ⟨1, 2, 3⟩ D50 D50).x - (1 : ℚ)|
        ≤ 1 / 10 ^ 7 * (|(1 : ℚ)| + |(2 : ℚ)| + |(3 : ℚ)|) ∧
     |(bradford_adapt ⟨1, 2, 3⟩ D50 D50).y - (2 : ℚ)|
        ≤ 1 / 10 ^ 7 * (|(1 : ℚ)| + |(2 : ℚ)| + |(3 : ℚ)|) ∧
     |(bradford_adapt ⟨1, 2, 3⟩ D50 D50).z - (3 : ℚ)|
        ≤ 1 / 10 ^ 7 * (|(1 : ℚ)| + |(2 : ℚ)| + |(3 : ℚ)|)) ∧
    (|(bradford_adapt (bradford_adapt ⟨1, 2, 3⟩ D50 D65) D65 D50).x - (1 : ℚ)|
        ≤ 1 / 10 ^ 5 * (|(1 : ℚ)| + |(2 : ℚ)| + |(3 : ℚ)|) ∧
     |(bradford_adapt (bradford_adapt ⟨1, 2, 3⟩ D50 D65) D65 D50).y - (2 : ℚ)|
        ≤ 1 / 10 ^ 5 * (|(1 : ℚ)| + |(2 : ℚ)| + |(3 : ℚ)|) ∧
     |(bradford_adapt (bradford_adapt ⟨1, 2, 3⟩ D50 D65) D65 D50).z - (3 : ℚ)|
        ≤ 1 / 10 ^ 5 * (|(1 : ℚ)| + |(2 : ℚ)| + |(3 : ℚ)|)) :=
  bradford_adapt_bounds ⟨1, 2, 3⟩ D50 (by norm_num [D50]) (by norm_num [D50])
    (by norm_num [D50])

/-! ## `generate_reference_spd_5nm` (`crates/spectro-core/src/tm30.rs`)

The only transcendental call is `f32::exp` inside the Planckian radiator,
so the generator is embedded parametrically in the exponential
(`e : ℚ → ℚ`); everything else is exact rational arithmetic from the
source: the CIE daylight model with the S₀/S₁/S₂ tables linearly
interpolated from the 10 nm grid, and the Planckian radiator on the
360-830 nm @ 5 nm grid. -/

def tm30S0 : List ℚ :=
  [0.0, 0.0, 33.4, 37.4, 117.4, 117.8, 114.9, 115.9, 108.8, 109.3, 107.8,
   104.8, 107.7, 104.4, 104.0, 100.0, 96.0, 95.1, 89.1, 90.5, 90.3, 88.4,
   84.0, 85.1, 81.9, 82.6, 84.9, 81.3, 71.9, 74.3, 76.4, 63.3, 71.7, 77.0,
   65.2, 47.7, 68.6, 65.0, 66.0, 61.0, 53.3]

def tm30S1 : List ℚ :=
  [0.0, 0.0, -1.1, -0.5, -0.7, -1.2, -2.6, -2.9, -2.8, -4.5, -6.1, -7.6,
   -9.7, -11.7, -12.2, -13.6, -12.0, -13.3, -12.9, -10.6, -11.6, -10.8,
   -8.1, -10.3, -11.0, -11.5, -10.8, -10.9, -8.8, -7.3, -12.9, -15.8,
   -15.1, -12.2, -10.2, -8.6, -12.0, -14.6, -15.1, -14.9, -13.7]

def tm30S2 : List ℚ :=
  [0.0, 0.0, -2.1, -1.9, -1.1, -2.2, -3.5, -3.5, -3.3, -2.0, -1.2, -1.1,
   -0.5, 0.2, 0.5, 2.1, 3.2, 4.1, 4.7, 5.1, 6.7, 7.3, 8.6, 9.8, 10.2,
   14.9, 18.1, 15.9, 16.8, 24.2, 31.7, 15.3, 18.9, 21.2, 15.6, 8.3, 18.9,
   14.6, 15.5, 15.4, 14.6]

/-- `generate_planckian_5nm`: `c₁·λ⁻⁵/(exp(c₂/(λT))-1)` with
`c₁ = 3.741771e-16`, `c₂ = 1.4388e-2` and `λ = (360+5i)·1e-9` metres. -/
def generate_planckian_5nm (e : ℚ → ℚ) (temp : ℚ) : List ℚ :=
  (List.range 95).map (fun i : ℕ =>
    let wl : ℚ := (360 + (i : ℚ) * 5) * 1e-9
    3.741771e-16 * wl ^ (-5 : ℤ) / (e (1.4388e-2 / (wl * temp)) - 1))

/-- The `get_val` closure in `generate_daylight_5nm`: clamped linear
interpolation into a 41-entry 10 nm table. -/
def tm30GetVal (table : List ℚ) (idx : ℤ) (x : ℚ) : ℚ :=
  if idx < 0 then table.getD 0 0
  else if idx ≥ 40 then table.getD 40 0
  else
    let v0 := table.getD idx.toNat 0
    let v1 := table.getD (idx.toNat + 1) 0
    v0 + x * (v1 - v0)

/-- `generate_daylight_5nm`: CIE daylight `S₀ + M₁S₁ + M₂S₂` with the
two-branch `x_D` polynomial, clamped to be nonnegative. -/
def generate_daylight_5nm (temp : ℚ) : List ℚ :=
  let xD := if temp ≤ 7000 then
      -4.6070e9 / temp ^ 3 + 2.9678e6 / temp ^ 2 + 0.09911e3 / temp
        + 0.244063
    else
      -2.0064e9 / temp ^ 3 + 1.9018e6 / temp ^ 2 + 0.24748e3 / temp
        + 0.237040
  let yD := -3.000 * xD * xD + 2.870 * xD - 0.275
  let m1 := (-1.3515 - 1.7703 * xD + 5.9114 * yD)
    / (0.0241 + 0.2562 * xD - 0.7341 * yD)
  let m2 := (0.0300 - 31.4424 * xD + 30.0717 * yD)
    / (0.0241 + 0.2562 * xD - 0.7341 * yD)
  (List.range 95).map (fun i : ℕ =>
    let wl : ℚ := 360 + (i : ℚ) * 5
    let t := (wl - 380) / 10
    let idx : ℤ := ⌊t⌋
    let x := t - (idx : ℚ)
    let s0 := tm30GetVal tm30S0 idx x
    let s1 := tm30GetVal tm30S1 idx x
    let s2 := tm30GetVal tm30S2 idx x
    let v := s0 + m1 * s1 + m2 * s2
    if v < 0 then 0 else v)

/-- `generate_reference_spd_5nm`: Planckian below 4000 K, daylight above
5000 K, per-wavelength blend in between. -/
def generate_reference_spd_5nm (e : ℚ → ℚ) (cct : ℚ) : List ℚ :=
  if cct < 4000 then generate_planckian_5nm e cct
  else if cct > 5000 then generate_daylight_5nm cct
  else
    let p := (5000 - cct) / (5000 - 4000)
    (List.range 95).map (fun i : ℕ =>
      p * (generate_planckian_5nm e cct).getD i 0
        + (1 - p) * (generate_daylight_5nm cct).getD i 0)

/-- C9: for every exponential oracle and every band `i < 95`, the TM-30
reference SPD is the Planckian radiator
`c₁·λ⁻⁵/(exp(c₂/(λT))-1)` with `c₁ = 3.741771e-16`, `c₂ = 1.4388e-2`
(λ in metres) when `CCT < 4000`; the CIE daylight model when
`CCT > 5000`; and the blend `p·Planck + (1-p)·Daylight` with
`p = (5000-CCT)/1000` when `4000 ≤ CCT ≤ 5000`. -/
theorem generate_reference_spd_cases (e : ℚ → ℚ) (cct : ℚ) (i : ℕ)
    (hi : i < 95) :
    (cct < 4000 → (generate_reference_spd_5nm e cct).getD i 0
      = 3.741771e-16 * (((360 : ℚ) + (i : ℚ) * 5) * 1e-9) ^ (-5 : ℤ)
        / (e (1.4388e-2 / ((((360 : ℚ) + (i : ℚ) * 5) * 1e-9) * cct)) - 1)) ∧
    (cct > 5000 → (generate_reference_spd_5nm e cct).getD i 0
      = (generate_daylight_5nm cct).getD i 0) ∧
    (4000 ≤ cct → cct ≤ 5000 → (generate_reference_spd_5nm e cct).getD i 0
      = (5000 - cct) / 1000 * (generate_planckian_5nm e cct).getD i 0
        + (1 - (5000 - cct) / 1000)
          * (generate_daylight_5nm cct).getD i 0) := by
  refine ⟨?_, ?_, ?_⟩
  · intro h
    rw [generate_reference_spd_5nm, if_pos h, generate_planckian_5nm,
      getD_map_range hi]
  · intro h
    rw [generate_reference_spd_5nm, if_neg (by linarith), if_pos h]
  · intro h4 h5
    rw [generate_reference_spd_5nm, if_neg (by linarith),
      if_neg (by linarith)]
    rw [getD_map_range hi]
    norm_num

/-- C9 witness: the Planckian branch instantiated at 3000 K, band 0, with
a concrete stand-in for the exponential. -/
theorem generate_reference_spd_cases_witness :
    (generate_reference_spd_5nm (fun _ => 2) 3000).getD 0 0
      = 3.741771e-16 * (((360 : ℚ) + ((0 : ℕ) : ℚ) * 5) * 1e-9) ^ (-5 : ℤ)
        / ((fun _ : ℚ => (2 : ℚ))
            (1.4388e-2 / ((((360 : ℚ) + ((0 : ℕ) : ℚ) * 5) * 1e-9) * 3000))
          - 1) :=
  (generate_reference_spd_cases (fun _ => 2) 3000 0 (by norm_num)).1
    (by norm_num)
